import Mathlib

/-!
Verification development for the flotte-user-management service.

The Rust sources are shallowly embedded:
* byte buffers (`[u8]`, `Vec<u8>`) become `List Nat` with every element `< 256`;
* Rust `String`s become `List Char`;
* `std::time::Instant` becomes a `Nat` (seconds on a monotone clock); every
  time-dependent operation takes the current instant `now : Nat` explicitly;
* machine integers (`i32`, `u32`) become `Int`/`Nat` with explicit twos-complement
  conversion where the code reads or writes raw bytes;
* randomness (`rand::thread_rng`) is passed in as an explicit byte list `rng`;
* fallible operations return `Except`/`Option` mirroring `Result`/`Option`.
-/

/-! ### Base64 (the `base64` crate as used by `src/utils/mod.rs` and `src/database/tokens.rs`) -/

/-- The standard base64 alphabet. -/
def b64chars : List Char :=
  "ABCDEFGHIJKLMNOPQRSTUVWXYZabcdefghijklmnopqrstuvwxyz0123456789+/".data

/-- Character of a 6-bit group. -/
def encodeChar (i : Nat) : Char := b64chars.getD i 'A'

/-- Index of a character in a character list. -/
def charIndex (c : Char) : List Char → Option Nat
  | [] => none
  | x :: xs => if x = c then some 0 else (charIndex c xs).map (· + 1)

/-- 6-bit group of an alphabet character; `none` for characters outside the alphabet. -/
def decodeChar (c : Char) : Option Nat := charIndex c b64chars

/-- `base64::encode`: bytes to characters, processing three bytes into four
characters, with `=` padding for a trailing one- or two-byte group. -/
def b64encode : List Nat → List Char
  | [] => []
  | [b1] => [encodeChar (b1 / 4), encodeChar (b1 % 4 * 16), '=', '=']
  | [b1, b2] =>
    [encodeChar (b1 / 4), encodeChar (b1 % 4 * 16 + b2 / 16), encodeChar (b2 % 16 * 4), '=']
  | b1 :: b2 :: b3 :: rest =>
    encodeChar (b1 / 4) :: encodeChar (b1 % 4 * 16 + b2 / 16) ::
      encodeChar (b2 % 16 * 4 + b3 / 64) :: encodeChar (b3 % 64) :: b64encode rest

/-- `base64::decode`: strict decoding, four characters at a time; `=` padding is
accepted only in the final group and trailing bits must be zero. -/
def b64decode : List Char → Option (List Nat)
  | [] => some []
  | c1 :: c2 :: c3 :: c4 :: rest =>
    if rest = [] ∧ c4 = '=' then
      if c3 = '=' then
        match decodeChar c1, decodeChar c2 with
        | some i1, some i2 => if i2 % 16 = 0 then some [i1 * 4 + i2 / 16] else none
        | _, _ => none
      else
        match decodeChar c1, decodeChar c2, decodeChar c3 with
        | some i1, some i2, some i3 =>
          if i3 % 4 = 0 then some [i1 * 4 + i2 / 16, i2 % 16 * 16 + i3 / 4] else none
        | _, _, _ => none
    else
      match decodeChar c1, decodeChar c2, decodeChar c3, decodeChar c4, b64decode rest with
      | some i1, some i2, some i3, some i4, some tail =>
        some ((i1 * 4 + i2 / 16) :: (i2 % 16 * 16 + i3 / 4) :: (i3 % 4 * 64 + i4) :: tail)
      | _, _, _, _, _ => none
  | _ => none

/-! ### Token codec (`src/utils/mod.rs`) -/

/-- `TOKEN_LENGTH` from `src/utils/mod.rs`. -/
def TOKEN_LENGTH : Nat := 32

/-- `BigEndian::read_i32` on the first four bytes of a buffer (missing bytes read
as zero; callers guarantee the length). -/
def be_read_i32 (bytes : List Nat) : Int :=
  let n := bytes.getD 0 0 * 16777216 + bytes.getD 1 0 * 65536 + bytes.getD 2 0 * 256 +
    bytes.getD 3 0
  if n < 2147483648 then (n : Int) else (n : Int) - 4294967296

/-- `BigEndian::write_i32`: the four big-endian bytes of the twos-complement
representation of an `i32`. -/
def be_write_i32 (id : Int) : List Nat :=
  let n := (id % 4294967296).toNat
  [n / 16777216 % 256, n / 65536 % 256, n / 256 % 256, n % 256]

/-- `create_user_token` from `src/utils/mod.rs`: a `TOKEN_LENGTH`-byte buffer filled
from the thread rng (modelled by the explicit `rng` bytes) whose first four bytes are
then overwritten with the big-endian user id. -/
def create_user_token (user_id : Int) (rng : List Nat) : List Nat :=
  be_write_i32 user_id ++ rng.drop 4

/-- `get_user_id_from_token` from `src/utils/mod.rs`: base64-decode the token and,
when the buffer is longer than four bytes, read the leading big-endian `i32`. -/
def get_user_id_from_token (token : List Char) : Option Int :=
  match b64decode token with
  | none => none
  | some bytes => if bytes.length > 4 then some (be_read_i32 bytes) else none

/-! ### Error message strings used by the embedded operations -/

/-- Message of `Err("Invalid token length")` in `TokenStoreEntry::new`. -/
def invalidTokenLengthMsg : List Char := "Invalid token length".data

/-- Message of the `ok_or` error in `TokenStore::insert`. -/
def invalidRequestTokenShortMsg : List Char := "Invalid request token".data

/-- Message of the invalid-refresh-token error in `Users::refresh_tokens`
(apostrophe elided). -/
def invalidRefreshTokenMsg : List Char := "Invalid refresh token!".data

/-- Message of the invalid-request-token error in `Users::delete_tokens`. -/
def invalidRequestTokenMsg : List Char := "Invalid request token!".data

/-! ### Session token store (`src/database/tokens.rs`) -/

/-- `REQUEST_TOKEN_EXPIRE_SECONDS` (600). -/
def REQUEST_TOKEN_EXPIRE_SECONDS : Nat := 60 * 10

/-- `REFRESH_TOKEN_EXPIRE_SECONDS` (86400). -/
def REFRESH_TOKEN_EXPIRE_SECONDS : Nat := 60 * 60 * 24

/-- `TokenStoreEntry`: tokens kept as raw bytes, declared ttls in seconds, and the
anchoring instant of the declared ttls. -/
structure TokenStoreEntry where
  request_token : List Nat
  request_ttl : Nat
  refresh_token : List Nat
  refresh_ttl : Nat
  ttl_start : Nat
deriving DecidableEq, Repr

/-- `TokenStoreEntry::request_ttl`: live request ttl at instant `now`, clamped
below at `-1`. -/
def TokenStoreEntry.request_ttl_at (e : TokenStoreEntry) (now : Nat) : Int :=
  max ((e.request_ttl : Int) - ((now - e.ttl_start : Nat) : Int)) (-1)

/-- `TokenStoreEntry::refresh_ttl`: live refresh ttl at instant `now`, clamped
below at `-1`. -/
def TokenStoreEntry.refresh_ttl_at (e : TokenStoreEntry) (now : Nat) : Int :=
  max ((e.refresh_ttl : Int) - ((now - e.ttl_start : Nat) : Int)) (-1)

/-- `TokenStoreEntry::request_token`: the encoded request token, if not expired. -/
def TokenStoreEntry.request_token_at (e : TokenStoreEntry) (now : Nat) : Option (List Char) :=
  if e.request_ttl_at now > 0 then some (b64encode e.request_token) else none

/-- `TokenStoreEntry::refresh_token`: the encoded refresh token, if not expired. -/
def TokenStoreEntry.refresh_token_at (e : TokenStoreEntry) (now : Nat) : Option (List Char) :=
  if e.refresh_ttl_at now > 0 then some (b64encode e.refresh_token) else none

/-- `TokenStoreEntry::reset_timer`: freeze both live ttls (clamped at 0) as the new
declared ttls and re-anchor at `now`. -/
def TokenStoreEntry.reset_timer (e : TokenStoreEntry) (now : Nat) : TokenStoreEntry :=
  { e with request_ttl := (max (e.request_ttl_at now) 0).toNat,
           refresh_ttl := (max (e.refresh_ttl_at now) 0).toNat,
           ttl_start := now }

/-- `TokenStoreEntry::set_request_token`: install the decoded new request token,
reset the timer, then overwrite both declared ttls with their starting constants.
The source unwraps the base64 decode and copies exactly `TOKEN_LENGTH` bytes
(panicking otherwise); the embedding substitutes the decoded bytes unchecked. -/
def TokenStoreEntry.set_request_token (e : TokenStoreEntry) (token : List Char) (now : Nat) :
    TokenStoreEntry :=
  let e1 := ({ e with request_token := (b64decode token).getD [] }).reset_timer now
  { e1 with request_ttl := REQUEST_TOKEN_EXPIRE_SECONDS,
            refresh_ttl := REFRESH_TOKEN_EXPIRE_SECONDS }

/-- `TokenStoreEntry::invalidate`: force both declared ttls to 0. -/
def TokenStoreEntry.invalidate (e : TokenStoreEntry) : TokenStoreEntry :=
  { e with request_ttl := 0, refresh_ttl := 0 }

/-- `TokenStoreEntry::new`: decode both tokens, reject a wrong length, and anchor
the starting ttls at `now`. -/
def TokenStoreEntry.new (request_token refresh_token : List Char) (now : Nat) :
    Except (List Char) TokenStoreEntry :=
  let req := (b64decode request_token).getD []
  let rf := (b64decode refresh_token).getD []
  if req.length ≠ TOKEN_LENGTH ∨ rf.length ≠ TOKEN_LENGTH then
    .error invalidTokenLengthMsg
  else
    .ok { request_token := req, refresh_token := rf,
          request_ttl := REQUEST_TOKEN_EXPIRE_SECONDS,
          refresh_ttl := REFRESH_TOKEN_EXPIRE_SECONDS, ttl_start := now }

/-- `TokenStore`: the per-user map of entries, as an association list keyed by
user id (the `HashMap<i32, Vec<TokenStoreEntry>>`). -/
structure TokenStore where
  tokens : List (Int × List TokenStoreEntry)
deriving DecidableEq, Repr

/-- The entry list stored for a user id (empty when the key is absent). -/
def TokenStore.bucket (s : TokenStore) (uid : Int) : List TokenStoreEntry :=
  match s.tokens.find? (fun kv => decide (kv.1 = uid)) with
  | some kv => kv.2
  | none => []

/-- Rewrite the entry list stored under a user id, leaving other keys unchanged. -/
def TokenStore.mapBucket (s : TokenStore) (uid : Int)
    (g : List TokenStoreEntry → List TokenStoreEntry) : TokenStore :=
  ⟨s.tokens.map (fun kv => if kv.1 = uid then (kv.1, g kv.2) else kv)⟩

/-- The predicate `get_by_request_token` matches entries with: the live request
token equals the searched token. -/
def matchesRequest (token : List Char) (now : Nat) (e : TokenStoreEntry) : Bool :=
  decide (e.request_token_at now = some token)

/-- The predicate `get_by_refresh_token` matches entries with: the live refresh
token equals the searched token. -/
def matchesRefresh (token : List Char) (now : Nat) (e : TokenStoreEntry) : Bool :=
  decide (e.refresh_token_at now = some token)

/-- Apply `f` to the first list element satisfying `p`. -/
def modifyFirstWhere (p : α → Bool) (f : α → α) : List α → List α
  | [] => []
  | x :: xs => if p x then f x :: xs else x :: modifyFirstWhere p f xs

/-- `TokenStore::get_by_request_token`: decode the embedded user id, then scan that
bucket for a live entry carrying the request token. -/
def TokenStore.get_by_request_token (s : TokenStore) (token : List Char) (now : Nat) :
    Option TokenStoreEntry :=
  match get_user_id_from_token token with
  | none => none
  | some uid => (s.bucket uid).find? (matchesRequest token now)

/-- `TokenStore::get_by_refresh_token`: decode the embedded user id, then scan that
bucket for a live entry carrying the refresh token. -/
def TokenStore.get_by_refresh_token (s : TokenStore) (token : List Char) (now : Nat) :
    Option TokenStoreEntry :=
  match get_user_id_from_token token with
  | none => none
  | some uid => (s.bucket uid).find? (matchesRefresh token now)

/-- The in-place mutation performed through the reference returned by
`get_by_request_token` when the caller invalidates the found entry. -/
def TokenStore.invalidateByRequestToken (s : TokenStore) (token : List Char) (now : Nat) :
    TokenStore :=
  match get_user_id_from_token token with
  | none => s
  | some uid => s.mapBucket uid (modifyFirstWhere (matchesRequest token now)
      TokenStoreEntry.invalidate)

/-- The in-place mutation performed through the reference returned by
`get_by_refresh_token` when the caller rotates the request token of the found
entry (`TokenStoreEntry::set_request_token`). -/
def TokenStore.rotateByRefreshToken (s : TokenStore) (refresh request : List Char) (now : Nat) :
    TokenStore :=
  match get_user_id_from_token refresh with
  | none => s
  | some uid => s.mapBucket uid (modifyFirstWhere (matchesRefresh refresh now)
      (fun e => e.set_request_token request now))

/-- `TokenStore::clear_expired` (the sweep): keep, in every bucket, exactly the
entries whose live refresh ttl is positive. -/
def TokenStore.clear_expired (s : TokenStore) (now : Nat) : TokenStore :=
  ⟨s.tokens.map (fun kv => (kv.1, kv.2.filter (fun e => decide (e.refresh_ttl_at now > 0))))⟩

/-- The get-or-insert-empty-vec step at the start of `TokenStore::insert`. -/
def TokenStore.ensureBucket (s : TokenStore) (uid : Int) : TokenStore :=
  if (s.tokens.find? (fun kv => decide (kv.1 = uid))).isSome then s
  else ⟨s.tokens ++ [(uid, [])]⟩

/-- `TokenStore::insert`: decode the user id from the refresh token, replace the
request token in place when a live entry for the refresh token exists, otherwise
push a fresh entry. No sweep is performed here. -/
def TokenStore.insert (s : TokenStore) (request refresh : List Char) (now : Nat) :
    Except (List Char) TokenStore :=
  match get_user_id_from_token refresh with
  | none => .error invalidRequestTokenShortMsg
  | some uid =>
    if (((s.ensureBucket uid).bucket uid).find? (matchesRefresh refresh now)).isSome then
      .ok ((s.ensureBucket uid).mapBucket uid (modifyFirstWhere (matchesRefresh refresh now)
        (fun e => e.set_request_token request now)))
    else
      match TokenStoreEntry.new request refresh now with
      | .ok entry => .ok ((s.ensureBucket uid).mapBucket uid (fun l => l ++ [entry]))
      | .error m => .error m

/-- `TokenStore::set_request_token`: sweep, then rotate the request token of every
entry of the bucket whose live refresh token matches. The source unwraps the user
id decode of the request token; the unreachable failure leaves the swept store. -/
def TokenStore.set_request_token (s : TokenStore) (refresh_token request_token : List Char)
    (now : Nat) : TokenStore :=
  match get_user_id_from_token request_token with
  | none => s.clear_expired now
  | some uid => (s.clear_expired now).mapBucket uid (List.map (fun e =>
      if matchesRefresh refresh_token now e then e.set_request_token request_token now else e))

/-! ### Session tokens DTO (`SessionTokens` in `src/database/tokens.rs`) -/

/-- `SessionTokens`: the API-readable token pair with its ttls. -/
structure SessionTokens where
  request_token : List Char
  refresh_token : List Char
  request_ttl : Int
  refresh_ttl : Int
deriving DecidableEq, Repr

/-- `SessionTokens::from_entry`: capture the live tokens and live ttls of a store
entry; `none` when the refresh token is expired, an empty request token when the
request token is expired. -/
def SessionTokens.from_entry (e : TokenStoreEntry) (now : Nat) : Option SessionTokens :=
  match e.refresh_token_at now with
  | none => none
  | some rt =>
    some { request_token := (e.request_token_at now).getD [],
           refresh_token := rt,
           request_ttl := e.request_ttl_at now,
           refresh_ttl := e.refresh_ttl_at now }

/-- `SessionTokens::get_user_id`: user id embedded in the refresh token. The source
unwraps; the unreachable decode failure yields 0. -/
def SessionTokens.get_user_id (t : SessionTokens) : Int :=
  (get_user_id_from_token t.refresh_token).getD 0

/-- `SessionTokens::refresh`: mint a fresh request token (from the explicit `rng`
bytes) and reset only the request ttl of the DTO. -/
def SessionTokens.refresh (t : SessionTokens) (rng : List Nat) : SessionTokens :=
  { t with request_token := b64encode (create_user_token t.get_user_id rng),
           request_ttl := (REQUEST_TOKEN_EXPIRE_SECONDS : Int) }

/-- `SessionTokens::store`: if a live entry for the refresh token exists, rotate its
request token in place, otherwise insert a new entry. -/
def SessionTokens.store (t : SessionTokens) (s : TokenStore) (now : Nat) :
    Except (List Char) TokenStore :=
  if (s.get_by_refresh_token t.refresh_token now).isSome then
    .ok (s.rotateByRefreshToken t.refresh_token t.request_token now)
  else
    s.insert t.request_token t.refresh_token now

/-! ### Database error type (`src/utils/error.rs`) -/

/-- `DBError`. Payloads irrelevant to the claims are reduced to message strings. -/
inductive DBErr where
  | Postgres (msg : List Char)
  | Pool (msg : List Char)
  | RecordExists
  | RecordDoesNotExist
  | BCryptError
  | DeserializeError (msg : List Char)
  | GenericError (msg : List Char)
deriving DecidableEq, Repr

/-! ### Session-token operations of the auth facade (`src/database/users.rs`)

The `DatabaseResult` wrapper of the two validators is dropped: they only ever
return `Ok`, since they touch no connection. -/

/-- `Users::validate_request_token`: `(true, live request ttl)` when a live entry
carrying the token exists, `(false, -1)` otherwise. -/
def Users.validate_request_token (s : TokenStore) (token : List Char) (now : Nat) :
    Bool × Int :=
  match s.get_by_request_token token now with
  | some e => (true, e.request_ttl_at now)
  | none => (false, -1)

/-- `Users::validate_refresh_token`: `(true, live refresh ttl)` when a live entry
carrying the token exists, `(false, -1)` otherwise. -/
def Users.validate_refresh_token (s : TokenStore) (token : List Char) (now : Nat) :
    Bool × Int :=
  match s.get_by_refresh_token token now with
  | some e => (true, e.refresh_ttl_at now)
  | none => (false, -1)

/-- `Users::refresh_tokens`: locate the entry by refresh token, capture it as a
`SessionTokens` DTO, refresh the DTO and store it back; the mutated store and the
DTO are returned. -/
def Users.refresh_tokens (s : TokenStore) (refresh_token : List Char) (rng : List Nat)
    (now : Nat) : Except DBErr (TokenStore × SessionTokens) :=
  match (s.get_by_refresh_token refresh_token now).bind (fun e =>
      SessionTokens.from_entry e now) with
  | some t =>
    let t2 := t.refresh rng
    match t2.store s now with
    | .ok s2 => .ok (s2, t2)
    | .error m => .error (.GenericError m)
  | none => .error (.GenericError invalidRefreshTokenMsg)

/-- `Users::delete_tokens`: invalidate the entry found by request token; the entry
is not removed from the store. -/
def Users.delete_tokens (s : TokenStore) (request_token : List Char) (now : Nat) :
    Except DBErr (TokenStore × Bool) :=
  match s.get_by_request_token request_token now with
  | some _ => .ok (s.invalidateByRequestToken request_token now, true)
  | none => .error (.GenericError invalidRequestTokenMsg)

/-! ### Relational state for the permission graph (`src/database/roles.rs`,
`src/database/permissions.rs`, schema of `role_permissions`/`user_roles`)

Multi-statement mutations run in one all-or-nothing transaction; an embedded
operation therefore returns the post-call state together with the Rust result,
and every failing operation returns the unchanged input state (rollback). Only
the columns the embedded operations read are modelled: permissions are their id
set, users their id and email. -/

/-- A row of the `roles` table. -/
structure Role where
  id : Int
  name : List Char
  description : Option (List Char)
deriving DecidableEq, Repr

/-- The relational state touched by the embedded role operations. -/
structure DbState where
  roles : List Role
  permissions : List Int
  role_permissions : List (Int × Int)
  user_roles : List (Int × Int)
  users : List (Int × List Char)
  next_role_id : Int
deriving DecidableEq, Repr

/-- Modelled from the spec: the reserved admin role name. The defining constant
`ADMIN_ROLE_NAME` lives in `src/database/mod.rs`, whose current revision is not
part of the sources (only its importers are); the checks that use it compare the
role name against this constant, so its concrete spelling is irrelevant to the
claims. -/
def ADMIN_ROLE_NAME : List Char := "ADMIN".data

/-- Message of the reserved-admin-role error in `Roles::update_role` and
`Roles::delete_role` (apostrophe elided). -/
def adminAlterMsg : List Char := "The admin role cannot be altered!".data

/-- Message of the name-collision error in `Roles::update_role`
(the formatted role name is elided). -/
def roleNameExistsMsg : List Char := "A role with the name already exists!".data

/-- Message of the foreign-key violation raised by Postgres when a
`role_permissions` row references an absent permission id. -/
def fkRolePermMsg : List Char :=
  "violates foreign key constraint role_permissions_permission_id_fkey".data

/-- Message of the 400 response of the HTTP `create_role`/`update_role` handlers
when requested permission ids do not exist (formatted ids elided). -/
def permsDontExistMsg : List Char := "The permissions do not exist".data

/-- `Permissions::get_not_existing`: the requested permission ids (deduplicated,
as the `HashSet` does) that are absent from the `permissions` table. -/
def Permissions.get_not_existing (st : DbState) (permissions_vec : List Int) : List Int :=
  permissions_vec.dedup.filter (fun p => decide (p ∉ st.permissions))

/-- `Roles::create_role`: fail `RecordExists` on a duplicate name; otherwise, in
one transaction, insert the role row, one join row per (deduplicated) permission
id — a join row referencing an absent permission id violates the foreign key and
rolls the transaction back — and best-effort assign the new role to the admin
user (silently skipped when the admin user is absent). -/
def Roles.create_role (st : DbState) (name : List Char) (description : Option (List Char))
    (permissions : List Int) (admin_email : List Char) : DbState × Except DBErr Role :=
  if (st.roles.find? (fun r => decide (r.name = name))).isSome then
    (st, .error .RecordExists)
  else
    if permissions.dedup.all (fun p => decide (p ∈ st.permissions)) then
      ({ st with roles := st.roles ++ [⟨st.next_role_id, name, description⟩],
                 role_permissions := st.role_permissions ++
                   permissions.dedup.map (fun p => (st.next_role_id, p)),
                 user_roles :=
                   match st.users.find? (fun u => decide (u.2 = admin_email)) with
                   | some u => st.user_roles ++ [(u.1, st.next_role_id)]
                   | none => st.user_roles,
                 next_role_id := st.next_role_id + 1 }, .ok ⟨st.next_role_id, name, description⟩)
    else
      (st, .error (.Postgres fkRolePermMsg))

/-- The body of the `Roles::update_role` transaction after its guards: update the
role row and apply the symmetric difference between the currently assigned and
the requested permission ids (new join rows again under the foreign key). -/
def updateRoleTail (st : DbState) (name : List Char) (description : Option (List Char))
    (permissions : List Int) (r : Role) : DbState × Except DBErr Role :=
  let current := (st.role_permissions.filter (fun rp => decide (rp.1 = r.id))).map Prod.snd
  let newPerms := permissions.dedup.filter (fun p => decide (p ∉ current))
  let deletedPerms := current.filter (fun p => decide (p ∉ permissions.dedup))
  if newPerms.all (fun p => decide (p ∈ st.permissions)) then
    ({ st with
       roles := st.roles.map (fun r2 =>
         if r2.id = r.id then ⟨r.id, name, description⟩ else r2),
       role_permissions :=
         (st.role_permissions.filter (fun rp =>
           decide (¬(rp.1 = r.id ∧ rp.2 ∈ deletedPerms)))) ++
         newPerms.map (fun p => (r.id, p)) }, .ok ⟨r.id, name, description⟩)
  else
    (st, .error (.Postgres fkRolePermMsg))

/-- `Roles::update_role`: refuse the reserved admin role, fail `RecordDoesNotExist`
when `old_name` is absent, fail on any role already carrying `name` (the query has
no self-exclusion), otherwise update the row and apply the permission symmetric
difference inside the transaction (new join rows again under the foreign key). -/
def Roles.update_role (st : DbState) (old_name name : List Char)
    (description : Option (List Char)) (permissions : List Int) : DbState × Except DBErr Role :=
  if old_name = ADMIN_ROLE_NAME then
    (st, .error (.GenericError adminAlterMsg))
  else
    match st.roles.find? (fun r => decide (r.name = old_name)) with
    | none => (st, .error .RecordDoesNotExist)
    | some r =>
      if (st.roles.find? (fun r2 => decide (r2.name = name))).isSome then
        (st, .error (.GenericError roleNameExistsMsg))
      else
        updateRoleTail st name description permissions r

/-- `Roles::delete_role`: refuse the reserved admin role, fail `RecordDoesNotExist`
when the name is absent, otherwise delete the role rows of that name; the
`ON DELETE CASCADE` clauses of `role_permissions` and `user_roles` drop the join
rows of the deleted role ids. -/
def Roles.delete_role (st : DbState) (name : List Char) : DbState × Except DBErr Unit :=
  if name = ADMIN_ROLE_NAME then
    (st, .error (.GenericError adminAlterMsg))
  else if (st.roles.find? (fun r => decide (r.name = name))).isNone then
    (st, .error .RecordDoesNotExist)
  else
    let deletedIds := (st.roles.filter (fun r => decide (r.name = name))).map Role.id
    ({ st with roles := st.roles.filter (fun r => decide (r.name ≠ name)),
               role_permissions := st.role_permissions.filter (fun rp =>
                 decide (rp.1 ∉ deletedIds)),
               user_roles := st.user_roles.filter (fun ur =>
                 decide (ur.2 ∉ deletedIds)) }, .ok ())

/-- `DBError::to_string`, reduced to the stored message strings. -/
def DBErr.toMsg : DBErr → List Char
  | .Postgres m => m
  | .Pool m => m
  | .RecordExists => "Record exists".data
  | .RecordDoesNotExist => "Record does not exist".data
  | .BCryptError => "BCrypt Hash creation error".data
  | .DeserializeError m => m
  | .GenericError m => m

/-- `UserHttpServer::create_role` after authorization: pre-validate the requested
permission ids with `get_not_existing` — answering a 400 error, outside any
transaction, when some are absent — and only then call `Roles::create_role`.
The success branch elides the trailing read-only `by_role` query. -/
def UserHttpServer.create_role (st : DbState) (name : List Char)
    (description : Option (List Char)) (permissions : List Int) (admin_email : List Char) :
    DbState × Except (List Char) Role :=
  if Permissions.get_not_existing st permissions ≠ [] then
    (st, .error permsDontExistMsg)
  else
    match Roles.create_role st name description permissions admin_email with
    | (st2, .ok role) => (st2, .ok role)
    | (st2, .error e) => (st2, .error e.toMsg)

/-! ### Store well-formedness

Every entry the running code puts into the store carries two `TOKEN_LENGTH`-byte
tokens minted by `create_user_token`, filed under the user id embedded in them. -/

/-- Well-formedness of one entry filed under `uid`. -/
def EntryWF (uid : Int) (e : TokenStoreEntry) : Prop :=
  e.request_token.length = TOKEN_LENGTH ∧ e.refresh_token.length = TOKEN_LENGTH ∧
  (∀ b ∈ e.request_token, b < 256) ∧ (∀ b ∈ e.refresh_token, b < 256) ∧
  be_read_i32 e.request_token = uid ∧ be_read_i32 e.refresh_token = uid

/-- Well-formedness of the store: the map keys are unique (as in a `HashMap`) and
every entry is well-formed for the user id it is filed under. -/
def TokenStore.WF (s : TokenStore) : Prop :=
  (s.tokens.map Prod.fst).Nodup ∧ ∀ kv ∈ s.tokens, ∀ e ∈ kv.2, EntryWF kv.1 e

/-! ### Concrete sample data used to evaluate the development on closed inputs -/

/-- Sample request-token bytes embedding user id 7. -/
def sampleReqBytes : List Nat := 0 :: 0 :: 0 :: 7 :: List.replicate 28 1

/-- Sample refresh-token bytes embedding user id 7. -/
def sampleRefBytes : List Nat := 0 :: 0 :: 0 :: 7 :: List.replicate 28 2

/-- A fresh sample entry for user 7 anchored at instant 0. -/
def sampleEntry : TokenStoreEntry :=
  ⟨sampleReqBytes, REQUEST_TOKEN_EXPIRE_SECONDS, sampleRefBytes,
    REFRESH_TOKEN_EXPIRE_SECONDS, 0⟩

/-- A sample store holding exactly the sample entry. -/
def sampleStore : TokenStore := ⟨[(7, [sampleEntry])]⟩

/-- Request-token bytes of a second user (id 8) for insertion tests. -/
def insReqBytes : List Nat := 0 :: 0 :: 0 :: 8 :: List.replicate 28 3

/-- Refresh-token bytes of the second user (id 8). -/
def insRefBytes : List Nat := 0 :: 0 :: 0 :: 8 :: List.replicate 28 4

/-- The entry `TokenStore::insert` creates for the second user at instant 100000. -/
def insNewEntry : TokenStoreEntry :=
  ⟨insReqBytes, REQUEST_TOKEN_EXPIRE_SECONDS, insRefBytes, REFRESH_TOKEN_EXPIRE_SECONDS, 100000⟩

/-- The store produced by that insertion into the sample store. -/
def insStore2 : TokenStore := ⟨[(7, [sampleEntry]), (8, [insNewEntry])]⟩

/-- An empty relational state (no roles, permissions, users). -/
def roleTestState : DbState :=
  { roles := [], permissions := [], role_permissions := [], user_roles := [],
    users := [], next_role_id := 1 }

/-- A relational state holding one ordinary role named editor. -/
def editorState : DbState :=
  { roles := [⟨1, "editor".data, none⟩], permissions := [], role_permissions := [],
    user_roles := [], users := [], next_role_id := 2 }

/-! ### Lemmas about the base64 embedding -/

/-- Alphabet characters decode back to their index. -/
theorem decodeChar_encodeChar : ∀ i : Nat, i < 64 → decodeChar (encodeChar i) = some i := by
  decide

/-- Alphabet characters are never the padding character. -/
theorem encodeChar_ne_pad : ∀ i : Nat, i < 64 → encodeChar i ≠ '=' := by
  decide

/-- Decoding inverts encoding on byte lists. -/
theorem b64_roundtrip : ∀ l : List Nat, (∀ b ∈ l, b < 256) → b64decode (b64encode l) = some l
  | [], _ => rfl
  | [b1], h => by
    have hb1 : b1 < 256 := h b1 (by simp)
    have h1 := decodeChar_encodeChar (b1 / 4) (by omega)
    have h2 := decodeChar_encodeChar (b1 % 4 * 16) (by omega)
    have hz : b1 % 4 * 16 % 16 = 0 := by omega
    simp [b64encode, b64decode, h1, h2, hz]
    omega
  | [b1, b2], h => by
    have hb1 : b1 < 256 := h b1 (by simp)
    have hb2 : b2 < 256 := h b2 (by simp)
    have h1 := decodeChar_encodeChar (b1 / 4) (by omega)
    have h2 := decodeChar_encodeChar (b1 % 4 * 16 + b2 / 16) (by omega)
    have h3 := decodeChar_encodeChar (b2 % 16 * 4) (by omega)
    have hne := encodeChar_ne_pad (b2 % 16 * 4) (by omega)
    have hz : b2 % 16 * 4 % 4 = 0 := by omega
    simp [b64encode, b64decode, h1, h2, h3, hne, hz]
    constructor
    · omega
    · omega
  | b1 :: b2 :: b3 :: rest, h => by
    have hb1 : b1 < 256 := h b1 (by simp)
    have hb2 : b2 < 256 := h b2 (by simp)
    have hb3 : b3 < 256 := h b3 (by simp)
    have ih := b64_roundtrip rest (fun b hb => h b (List.mem_cons_of_mem _
      (List.mem_cons_of_mem _ (List.mem_cons_of_mem _ hb))))
    have h1 := decodeChar_encodeChar (b1 / 4) (by omega)
    have h2 := decodeChar_encodeChar (b1 % 4 * 16 + b2 / 16) (by omega)
    have h3 := decodeChar_encodeChar (b2 % 16 * 4 + b3 / 64) (by omega)
    have h4 := decodeChar_encodeChar (b3 % 64) (by omega)
    have hne := encodeChar_ne_pad (b3 % 64) (by omega)
    simp only [b64encode, b64decode]
    rw [if_neg (fun hc => hne hc.2)]
    rw [h1, h2, h3, h4, ih]
    simp only [Option.some.injEq, List.cons.injEq]
    refine ⟨by omega, by omega, by omega, trivial⟩

/-! ### Lemmas about the token codec -/

/-- Reading the leading big-endian `i32` after writing it recovers the value, for
every value in `i32` range. -/
theorem be_read_be_write (id : Int) (rest : List Nat) (h1 : -2147483648 ≤ id)
    (h2 : id < 2147483648) : be_read_i32 (be_write_i32 id ++ rest) = id := by
  have hn : ((id % 4294967296).toNat : Int) = id % 4294967296 :=
    Int.toNat_of_nonneg (Int.emod_nonneg id (by norm_num))
  simp only [be_write_i32, be_read_i32, List.cons_append, List.nil_append,
    List.getD_cons_zero, List.getD_cons_succ]
  split <;> omega

/-- A generated user token is `TOKEN_LENGTH` bytes long when the rng buffer is. -/
theorem create_user_token_length (id : Int) (rng : List Nat) (h : rng.length = TOKEN_LENGTH) :
    (create_user_token id rng).length = TOKEN_LENGTH := by
  simp [create_user_token, be_write_i32, h, TOKEN_LENGTH]

/-- A generated user token consists of bytes. -/
theorem create_user_token_bytes (id : Int) (rng : List Nat) (h : ∀ b ∈ rng, b < 256) :
    ∀ b ∈ create_user_token id rng, b < 256 := by
  intro b hb
  simp only [create_user_token, be_write_i32, List.mem_append] at hb
  rcases hb with hb | hb
  · simp only [List.mem_cons, List.not_mem_nil, or_false] at hb
    rcases hb with h | h | h | h <;> omega
  · exact h b (List.drop_subset 4 rng hb)

/-- Decoding the encoded form of a full-length byte token succeeds and reads the
embedded user id. -/
theorem get_user_id_of_encoded (bytes : List Nat) (hlen : bytes.length = TOKEN_LENGTH)
    (hb : ∀ b ∈ bytes, b < 256) :
    get_user_id_from_token (b64encode bytes) = some (be_read_i32 bytes) := by
  simp only [get_user_id_from_token, b64_roundtrip bytes hb]
  rw [if_pos (by simp [hlen, TOKEN_LENGTH])]

/-- Claim C9: decoding a freshly encoded token yields the same id — for every
`i32` id and every rng fill, `get_user_id_from_token (base64 (create_user_token
id))` returns `id`, the token being a 32-byte buffer whose first four bytes are
the big-endian encoding of the id. -/
theorem c9_decode_encode_roundtrip (id : Int) (rng : List Nat)
    (h1 : -2147483648 ≤ id) (h2 : id < 2147483648)
    (hlen : rng.length = TOKEN_LENGTH) (hbytes : ∀ b ∈ rng, b < 256) :
    get_user_id_from_token (b64encode (create_user_token id rng)) = some id ∧
    (create_user_token id rng).length = TOKEN_LENGTH ∧
    (create_user_token id rng).take 4 = be_write_i32 id := by
  refine ⟨?_, create_user_token_length id rng hlen, ?_⟩
  · rw [get_user_id_of_encoded (create_user_token id rng)
      (create_user_token_length id rng hlen) (create_user_token_bytes id rng hbytes)]
    rw [create_user_token, be_read_be_write id _ h1 h2]
  · simp [create_user_token, be_write_i32]

/-- Witness for C9 at a concrete id and rng buffer. -/
theorem c9_witness :
    get_user_id_from_token (b64encode (create_user_token 5 (List.replicate 32 0))) =
      some 5 :=
  (c9_decode_encode_roundtrip 5 (List.replicate 32 0) (by decide) (by decide) (by decide)
    (by decide)).1

/-- Claim C8, counterexample: the token whose decoded buffer is exactly four bytes
long. Decoding yields the four-byte buffer `[0,0,0,1]`, so by the claim the
function should return the id 1 held in the first four bytes, yet the code
demands a length strictly greater than four and fails. -/
theorem c8_counterexample :
    b64decode ("AAAAAQ==".data) = some [0, 0, 0, 1] ∧
    get_user_id_from_token ("AAAAAQ==".data) = none := by
  constructor
  · decide
  · decide

/-- Claim C8 as amended: `get_user_id_from_token` fails exactly when the token is
undecodable or its decoded buffer is at most four bytes long (four or fewer, not
only strictly shorter than four); for every decodable token of more than four
bytes it returns the user id held in the first four bytes. -/
theorem c8_get_user_id_error_conditions (token : List Char) :
    (get_user_id_from_token token = none ↔
      b64decode token = none ∨ ∃ bytes, b64decode token = some bytes ∧ bytes.length ≤ 4) ∧
    (∀ bytes, b64decode token = some bytes → 4 < bytes.length →
      get_user_id_from_token token = some (be_read_i32 bytes)) := by
  constructor
  · cases hb : b64decode token with
    | none => simp [get_user_id_from_token, hb]
    | some bytes =>
      simp only [get_user_id_from_token, hb]
      by_cases hl : bytes.length > 4
      · rw [if_pos hl]
        simp only [reduceCtorEq, false_iff, not_or]
        refine ⟨by simp, ?_⟩
        rintro ⟨bytes2, hb2, hlen2⟩
        cases hb2
        omega
      · rw [if_neg hl]
        simp only [true_iff]
        exact Or.inr ⟨bytes, rfl, by omega⟩
  · intro bytes hb hlen
    simp [get_user_id_from_token, hb, hlen]

/-- Witness for the amended C8 at a concrete five-byte token. -/
theorem c8_witness :
    get_user_id_from_token (b64encode [0, 0, 0, 1, 2]) = some (be_read_i32 [0, 0, 0, 1, 2]) :=
  (c8_get_user_id_error_conditions (b64encode [0, 0, 0, 1, 2])).2 [0, 0, 0, 1, 2]
    (by decide) (by decide)

/-! ### Lemmas about the token store -/

/-- Claim C1: rotating the request token of an entry installs the new request
token and resets both declared ttls to their starting values (600 and 86400),
re-anchoring the entry at `now`, so that both live ttls at `now` are again the
full starting values, regardless of how far the previous ttls had decayed. -/
theorem c1_set_request_token_resets (e : TokenStoreEntry) (token : List Char) (now : Nat)
    (bytes : List Nat) (hdec : b64decode token = some bytes) :
    (e.set_request_token token now).request_token = bytes ∧
    (e.set_request_token token now).refresh_token = e.refresh_token ∧
    (e.set_request_token token now).request_ttl = REQUEST_TOKEN_EXPIRE_SECONDS ∧
    (e.set_request_token token now).refresh_ttl = REFRESH_TOKEN_EXPIRE_SECONDS ∧
    (e.set_request_token token now).ttl_start = now ∧
    (e.set_request_token token now).request_ttl_at now = 600 ∧
    (e.set_request_token token now).refresh_ttl_at now = 86400 := by
  simp [TokenStoreEntry.set_request_token, TokenStoreEntry.reset_timer, hdec,
    TokenStoreEntry.request_ttl_at, TokenStoreEntry.refresh_ttl_at,
    REQUEST_TOKEN_EXPIRE_SECONDS, REFRESH_TOKEN_EXPIRE_SECONDS]

/-- Witness for C1 at a concrete, heavily decayed entry. -/
theorem c1_witness :
    ((TokenStoreEntry.mk (List.replicate 32 3) 600 (List.replicate 32 4) 86400 0).set_request_token
        (b64encode (List.replicate 32 7)) 599).request_token = List.replicate 32 7 ∧
    ((TokenStoreEntry.mk (List.replicate 32 3) 600 (List.replicate 32 4) 86400 0).set_request_token
        (b64encode (List.replicate 32 7)) 599).request_ttl_at 599 = 600 :=
  ⟨(c1_set_request_token_resets _ _ 599 (List.replicate 32 7) (by decide)).1,
   (c1_set_request_token_resets _ _ 599 (List.replicate 32 7) (by decide)).2.2.2.2.2.1⟩

/-- A live request token of an entry determines a positive live ttl and the
encoded stored bytes. -/
theorem request_token_at_some_elim (e : TokenStoreEntry) (now : Nat) (tok : List Char)
    (h : e.request_token_at now = some tok) :
    e.request_ttl_at now > 0 ∧ b64encode e.request_token = tok := by
  unfold TokenStoreEntry.request_token_at at h
  by_cases hp : e.request_ttl_at now > 0
  · rw [if_pos hp] at h
    exact ⟨hp, Option.some.inj h⟩
  · rw [if_neg hp] at h
    cases h

/-- A live refresh token of an entry determines a positive live ttl and the
encoded stored bytes. -/
theorem refresh_token_at_some_elim (e : TokenStoreEntry) (now : Nat) (tok : List Char)
    (h : e.refresh_token_at now = some tok) :
    e.refresh_ttl_at now > 0 ∧ b64encode e.refresh_token = tok := by
  unfold TokenStoreEntry.refresh_token_at at h
  by_cases hp : e.refresh_ttl_at now > 0
  · rw [if_pos hp] at h
    exact ⟨hp, Option.some.inj h⟩
  · rw [if_neg hp] at h
    cases h

/-- Under unique keys, the bucket of a present key is its stored entry list. -/
theorem bucket_of_mem (s : TokenStore) (uid : Int) (entries : List TokenStoreEntry)
    (hnd : (s.tokens.map Prod.fst).Nodup) (hmem : (uid, entries) ∈ s.tokens) :
    s.bucket uid = entries := by
  obtain ⟨l⟩ := s
  unfold TokenStore.bucket
  simp only at hnd hmem ⊢
  induction l with
  | nil => cases hmem
  | cons kv rest ih =>
    simp only [List.map_cons, List.nodup_cons] at hnd
    rcases List.mem_cons.mp hmem with heq | htail
    · rw [List.find?_cons_of_pos _ (by simp [← heq]), ← heq]
    · have hk : ¬(kv.1 = uid) := by
        intro hk
        exact hnd.1 (hk ▸ (List.mem_map.mpr ⟨(uid, entries), htail, rfl⟩))
      rw [List.find?_cons_of_neg _ (by simp [hk])]
      exact ih hnd.2 htail

/-- Rewriting one bucket leaves every other bucket unchanged. -/
theorem bucket_mapBucket_ne (s : TokenStore) (uid uid2 : Int)
    (g : List TokenStoreEntry → List TokenStoreEntry) (h : uid2 ≠ uid) :
    (s.mapBucket uid g).bucket uid2 = s.bucket uid2 := by
  obtain ⟨l⟩ := s
  unfold TokenStore.mapBucket TokenStore.bucket
  simp only
  induction l with
  | nil => rfl
  | cons kv rest ih =>
    by_cases hk : kv.1 = uid2
    · have hku : ¬(kv.1 = uid) := fun hc => h (by rw [← hk, hc])
      simp only [List.map_cons, if_neg hku]
      rw [List.find?_cons_of_pos _ (by simp [hk]), List.find?_cons_of_pos _ (by simp [hk])]
    · by_cases hku : kv.1 = uid
      · simp only [List.map_cons, if_pos hku]
        rw [List.find?_cons_of_neg _ (by simp [hk]), List.find?_cons_of_neg _ (by simp [hk])]
        exact ih
      · simp only [List.map_cons, if_neg hku]
        rw [List.find?_cons_of_neg _ (by simp [hk]), List.find?_cons_of_neg _ (by simp [hk])]
        exact ih

/-- Rewriting a present bucket applies the rewrite to its entry list. -/
theorem bucket_mapBucket_self (s : TokenStore) (uid : Int)
    (g : List TokenStoreEntry → List TokenStoreEntry)
    (hp : (s.tokens.find? (fun kv => decide (kv.1 = uid))).isSome = true) :
    (s.mapBucket uid g).bucket uid = g (s.bucket uid) := by
  obtain ⟨l⟩ := s
  unfold TokenStore.mapBucket TokenStore.bucket
  simp only at hp ⊢
  induction l with
  | nil => cases hp
  | cons kv rest ih =>
    by_cases hk : kv.1 = uid
    · simp only [List.map_cons, if_pos hk]
      rw [List.find?_cons_of_pos _ (by simp [hk]), List.find?_cons_of_pos _ (by simp [hk])]
    · simp only [List.map_cons, if_neg hk]
      rw [List.find?_cons_of_neg _ (by simp [hk])] at hp
      rw [List.find?_cons_of_neg _ (by simp [hk]), List.find?_cons_of_neg _ (by simp [hk])]
      exact ih hp

/-- What a successful request-token lookup guarantees: the found entry is in the
store, with the searched token live. -/
theorem get_by_request_token_elim (s : TokenStore) (token : List Char) (now : Nat)
    (e : TokenStoreEntry) (hg : s.get_by_request_token token now = some e) :
    e.request_token_at now = some token ∧ ∃ kv ∈ s.tokens, e ∈ kv.2 := by
  unfold TokenStore.get_by_request_token at hg
  cases hd : get_user_id_from_token token with
  | none => rw [hd] at hg; cases hg
  | some uid =>
    rw [hd] at hg
    have hpred := List.find?_some hg
    have hmem := List.mem_of_find?_eq_some hg
    refine ⟨of_decide_eq_true hpred, ?_⟩
    unfold TokenStore.bucket at hmem
    cases hf : s.tokens.find? (fun kv => decide (kv.1 = uid)) with
    | none => rw [hf] at hmem; cases hmem
    | some kv =>
      rw [hf] at hmem
      exact ⟨kv, List.mem_of_find?_eq_some hf, hmem⟩

/-- What a successful refresh-token lookup guarantees: the found entry is in the
store, with the searched token live. -/
theorem get_by_refresh_token_elim (s : TokenStore) (token : List Char) (now : Nat)
    (e : TokenStoreEntry) (hg : s.get_by_refresh_token token now = some e) :
    e.refresh_token_at now = some token ∧ ∃ kv ∈ s.tokens, e ∈ kv.2 := by
  unfold TokenStore.get_by_refresh_token at hg
  cases hd : get_user_id_from_token token with
  | none => rw [hd] at hg; cases hg
  | some uid =>
    rw [hd] at hg
    have hpred := List.find?_some hg
    have hmem := List.mem_of_find?_eq_some hg
    refine ⟨of_decide_eq_true hpred, ?_⟩
    unfold TokenStore.bucket at hmem
    cases hf : s.tokens.find? (fun kv => decide (kv.1 = uid)) with
    | none => rw [hf] at hmem; cases hmem
    | some kv =>
      rw [hf] at hmem
      exact ⟨kv, List.mem_of_find?_eq_some hf, hmem⟩

/-- In a well-formed store, a stored entry whose request token is live is found by
the request-token lookup (possibly as another live entry carrying the token). -/
theorem get_by_request_token_intro (s : TokenStore) (now : Nat) (hwf : s.WF) (uid : Int)
    (entries : List TokenStoreEntry) (e : TokenStoreEntry)
    (hmem : (uid, entries) ∈ s.tokens) (he : e ∈ entries)
    (httl : e.request_ttl_at now > 0) :
    ∃ e2, s.get_by_request_token (b64encode e.request_token) now = some e2 ∧
      matchesRequest (b64encode e.request_token) now e2 = true := by
  obtain ⟨hl1, _, hb1, _, hr1, _⟩ := hwf.2 (uid, entries) hmem e he
  have hdec : get_user_id_from_token (b64encode e.request_token) = some uid := by
    rw [get_user_id_of_encoded e.request_token hl1 hb1, hr1]
  unfold TokenStore.get_by_request_token
  rw [hdec]
  show ∃ e2, (s.bucket uid).find? (matchesRequest (b64encode e.request_token) now) = some e2 ∧
    matchesRequest (b64encode e.request_token) now e2 = true
  rw [bucket_of_mem s uid entries hwf.1 hmem]
  have hpred : matchesRequest (b64encode e.request_token) now e = true := by
    simp [matchesRequest, TokenStoreEntry.request_token_at, if_pos httl]
  have hex : (entries.find? (matchesRequest (b64encode e.request_token) now)).isSome :=
    List.find?_isSome.mpr ⟨e, he, hpred⟩
  obtain ⟨e2, he2⟩ := Option.isSome_iff_exists.mp hex
  exact ⟨e2, he2, List.find?_some he2⟩

/-- In a well-formed store, a stored entry whose refresh token is live is found by
the refresh-token lookup (possibly as another live entry carrying the token). -/
theorem get_by_refresh_token_intro (s : TokenStore) (now : Nat) (hwf : s.WF) (uid : Int)
    (entries : List TokenStoreEntry) (e : TokenStoreEntry)
    (hmem : (uid, entries) ∈ s.tokens) (he : e ∈ entries)
    (httl : e.refresh_ttl_at now > 0) :
    ∃ e2, s.get_by_refresh_token (b64encode e.refresh_token) now = some e2 ∧
      matchesRefresh (b64encode e.refresh_token) now e2 = true := by
  obtain ⟨_, hl2, _, hb2, _, hr2⟩ := hwf.2 (uid, entries) hmem e he
  have hdec : get_user_id_from_token (b64encode e.refresh_token) = some uid := by
    rw [get_user_id_of_encoded e.refresh_token hl2 hb2, hr2]
  unfold TokenStore.get_by_refresh_token
  rw [hdec]
  show ∃ e2, (s.bucket uid).find? (matchesRefresh (b64encode e.refresh_token) now) = some e2 ∧
    matchesRefresh (b64encode e.refresh_token) now e2 = true
  rw [bucket_of_mem s uid entries hwf.1 hmem]
  have hpred : matchesRefresh (b64encode e.refresh_token) now e = true := by
    simp [matchesRefresh, TokenStoreEntry.refresh_token_at, if_pos httl]
  have hex : (entries.find? (matchesRefresh (b64encode e.refresh_token) now)).isSome :=
    List.find?_isSome.mpr ⟨e, he, hpred⟩
  obtain ⟨e2, he2⟩ := Option.isSome_iff_exists.mp hex
  exact ⟨e2, he2, List.find?_some he2⟩

/-- Reduction of the request validator on a found entry. -/
theorem validate_request_token_eq_some (s : TokenStore) (token : List Char) (now : Nat)
    (e : TokenStoreEntry) (hg : s.get_by_request_token token now = some e) :
    Users.validate_request_token s token now = (true, e.request_ttl_at now) := by
  unfold Users.validate_request_token
  rw [hg]

/-- Reduction of the request validator on a missing entry. -/
theorem validate_request_token_eq_none (s : TokenStore) (token : List Char) (now : Nat)
    (hg : s.get_by_request_token token now = none) :
    Users.validate_request_token s token now = (false, -1) := by
  unfold Users.validate_request_token
  rw [hg]

/-- Reduction of the refresh validator on a found entry. -/
theorem validate_refresh_token_eq_some (s : TokenStore) (token : List Char) (now : Nat)
    (e : TokenStoreEntry) (hg : s.get_by_refresh_token token now = some e) :
    Users.validate_refresh_token s token now = (true, e.refresh_ttl_at now) := by
  unfold Users.validate_refresh_token
  rw [hg]

/-- Reduction of the refresh validator on a missing entry. -/
theorem validate_refresh_token_eq_none (s : TokenStore) (token : List Char) (now : Nat)
    (hg : s.get_by_refresh_token token now = none) :
    Users.validate_refresh_token s token now = (false, -1) := by
  unfold Users.validate_refresh_token
  rw [hg]

/-- Claim C2: in a well-formed store a token validates successfully if and only if
a store entry holding it exists with live ttl strictly greater than 0; in that
case the validators return `(true, remaining_ttl)` with `remaining_ttl > 0`, and
in every other case (no entry, expired entry, undecodable token) they return
`(false, -1)`. -/
theorem c2_validate_token_iff (s : TokenStore) (token : List Char) (now : Nat) (hwf : s.WF) :
    ((Users.validate_request_token s token now).1 = true ↔
      ∃ uid entries, (uid, entries) ∈ s.tokens ∧ ∃ e ∈ entries,
        b64encode e.request_token = token ∧ e.request_ttl_at now > 0) ∧
    ((Users.validate_request_token s token now).1 = true →
      (Users.validate_request_token s token now).2 > 0) ∧
    ((Users.validate_request_token s token now).1 = false →
      Users.validate_request_token s token now = (false, -1)) ∧
    ((Users.validate_refresh_token s token now).1 = true ↔
      ∃ uid entries, (uid, entries) ∈ s.tokens ∧ ∃ e ∈ entries,
        b64encode e.refresh_token = token ∧ e.refresh_ttl_at now > 0) ∧
    ((Users.validate_refresh_token s token now).1 = true →
      (Users.validate_refresh_token s token now).2 > 0) ∧
    ((Users.validate_refresh_token s token now).1 = false →
      Users.validate_refresh_token s token now = (false, -1)) := by
  have hreq : ((Users.validate_request_token s token now).1 = true ↔
      ∃ uid entries, (uid, entries) ∈ s.tokens ∧ ∃ e ∈ entries,
        b64encode e.request_token = token ∧ e.request_ttl_at now > 0) ∧
      ((Users.validate_request_token s token now).1 = true →
        (Users.validate_request_token s token now).2 > 0) ∧
      ((Users.validate_request_token s token now).1 = false →
        Users.validate_request_token s token now = (false, -1)) := by
    cases hg : s.get_by_request_token token now with
    | some e =>
      obtain ⟨hat, kv, hkv, hekv⟩ := get_by_request_token_elim s token now e hg
      obtain ⟨httl, htok⟩ := request_token_at_some_elim e now token hat
      rw [validate_request_token_eq_some s token now e hg]
      exact ⟨⟨fun _ => ⟨kv.1, kv.2, by simpa using hkv, e, hekv, htok, httl⟩, fun _ => rfl⟩,
        fun _ => httl, fun hc => by simp at hc⟩
    | none =>
      rw [validate_request_token_eq_none s token now hg]
      refine ⟨⟨fun hc => by simp at hc, ?_⟩, fun hc => by simp at hc, fun _ => rfl⟩
      rintro ⟨uid, entries, hmem, e, he, htok, httl⟩
      obtain ⟨e2, he2, _⟩ := get_by_request_token_intro s now hwf uid entries e hmem he httl
      rw [htok, hg] at he2
      cases he2
  have href : ((Users.validate_refresh_token s token now).1 = true ↔
      ∃ uid entries, (uid, entries) ∈ s.tokens ∧ ∃ e ∈ entries,
        b64encode e.refresh_token = token ∧ e.refresh_ttl_at now > 0) ∧
      ((Users.validate_refresh_token s token now).1 = true →
        (Users.validate_refresh_token s token now).2 > 0) ∧
      ((Users.validate_refresh_token s token now).1 = false →
        Users.validate_refresh_token s token now = (false, -1)) := by
    cases hg : s.get_by_refresh_token token now with
    | some e =>
      obtain ⟨hat, kv, hkv, hekv⟩ := get_by_refresh_token_elim s token now e hg
      obtain ⟨httl, htok⟩ := refresh_token_at_some_elim e now token hat
      rw [validate_refresh_token_eq_some s token now e hg]
      exact ⟨⟨fun _ => ⟨kv.1, kv.2, by simpa using hkv, e, hekv, htok, httl⟩, fun _ => rfl⟩,
        fun _ => httl, fun hc => by simp at hc⟩
    | none =>
      rw [validate_refresh_token_eq_none s token now hg]
      refine ⟨⟨fun hc => by simp at hc, ?_⟩, fun hc => by simp at hc, fun _ => rfl⟩
      rintro ⟨uid, entries, hmem, e, he, htok, httl⟩
      obtain ⟨e2, he2, _⟩ := get_by_refresh_token_intro s now hwf uid entries e hmem he httl
      rw [htok, hg] at he2
      cases he2
  exact ⟨hreq.1, hreq.2.1, hreq.2.2, href.1, href.2.1, href.2.2⟩

/-- Witness for C2: the sample token of the sample store validates. -/
theorem c2_witness :
    (Users.validate_request_token sampleStore (b64encode sampleReqBytes) 0).1 = true :=
  (c2_validate_token_iff sampleStore (b64encode sampleReqBytes) 0
      ⟨by decide, by unfold EntryWF; decide⟩).1.mpr
    ⟨7, [sampleEntry], by decide, sampleEntry, by decide, rfl, by decide⟩

/-- A successful `find?` splits the list at the first match. -/
theorem find?_decomp {α : Type} (p : α → Bool) (l : List α) (e : α) (h : l.find? p = some e) :
    ∃ l1 l2, l = l1 ++ e :: l2 ∧ ∀ x ∈ l1, p x = false := by
  induction l with
  | nil => cases h
  | cons x xs ih =>
    by_cases hp : p x = true
    · rw [List.find?_cons_of_pos _ hp] at h
      cases h
      exact ⟨[], xs, rfl, by simp⟩
    · rw [List.find?_cons_of_neg _ (by simpa using hp)] at h
      obtain ⟨l1, l2, hdec, hl1⟩ := ih h
      refine ⟨x :: l1, l2, by rw [hdec]; rfl, ?_⟩
      intro y hy
      rcases List.mem_cons.mp hy with h1 | h2
      · rw [h1]
        simpa using hp
      · exact hl1 y h2

/-- `modifyFirstWhere` rewrites exactly the head of the matching tail. -/
theorem modifyFirstWhere_decomp {α : Type} (p : α → Bool) (f : α → α) (l1 l2 : List α) (e : α)
    (h1 : ∀ x ∈ l1, p x = false) (he : p e = true) :
    modifyFirstWhere p f (l1 ++ e :: l2) = l1 ++ f e :: l2 := by
  induction l1 with
  | nil =>
    simp only [List.nil_append, modifyFirstWhere]
    rw [if_pos he]
  | cons x xs ih =>
    simp only [List.cons_append, modifyFirstWhere]
    rw [if_neg (by simp [h1 x (by simp)])]
    exact congrArg (x :: ·) (ih (fun y hy => h1 y (by simp [hy])))

/-- An invalidated entry never matches a request-token search. -/
theorem matchesRequest_invalidate (e : TokenStoreEntry) (token : List Char) (now : Nat) :
    matchesRequest token now e.invalidate = false := by
  have hc : ((now - e.ttl_start : Nat) : Int) ≥ 0 := Int.ofNat_nonneg _
  have hmax : ¬(e.invalidate.request_ttl_at now > 0) := by
    unfold TokenStoreEntry.invalidate TokenStoreEntry.request_ttl_at
    simp only [gt_iff_lt, lt_max_iff]
    push_neg
    constructor <;> omega
  simp [matchesRequest, TokenStoreEntry.request_token_at, if_neg hmax]

/-- An invalidated entry never matches a refresh-token search. -/
theorem matchesRefresh_invalidate (e : TokenStoreEntry) (token : List Char) (now : Nat) :
    matchesRefresh token now e.invalidate = false := by
  have hc : ((now - e.ttl_start : Nat) : Int) ≥ 0 := Int.ofNat_nonneg _
  have hmax : ¬(e.invalidate.refresh_ttl_at now > 0) := by
    unfold TokenStoreEntry.invalidate TokenStoreEntry.refresh_ttl_at
    simp only [gt_iff_lt, lt_max_iff]
    push_neg
    constructor <;> omega
  simp [matchesRefresh, TokenStoreEntry.refresh_token_at, if_neg hmax]

/-- Claim C6: applying `invalidate` to a live entry through `delete_tokens`
(logout) forces both of its declared ttls to 0, after which both validators
report `(false, -1)` for its tokens, while the entry itself is still physically
present in the store at its position — no entry is removed and every other
entry is unchanged. The uniqueness hypotheses say that no other entry carries
the same tokens, as holds for the randomly minted tokens of the running code. -/
theorem c6_delete_tokens_invalidates_in_place (s : TokenStore) (token : List Char) (now : Nat)
    (e : TokenStoreEntry) (uid : Int)
    (huid : get_user_id_from_token token = some uid)
    (hfind : (s.bucket uid).find? (matchesRequest token now) = some e)
    (hreq1 : ∀ x ∈ s.bucket uid, matchesRequest token now x = true → x = e)
    (href1 : ∀ x ∈ s.bucket uid, matchesRefresh (b64encode e.refresh_token) now x = true → x = e)
    (hcount : (s.bucket uid).count e = 1)
    (hrefuid : get_user_id_from_token (b64encode e.refresh_token) = some uid) :
    ∃ s2, Users.delete_tokens s token now = .ok (s2, true) ∧
      e.invalidate.request_ttl = 0 ∧ e.invalidate.refresh_ttl = 0 ∧
      e.invalidate.request_token = e.request_token ∧
      e.invalidate.refresh_token = e.refresh_token ∧
      (∃ l1 l2, s.bucket uid = l1 ++ e :: l2 ∧ s2.bucket uid = l1 ++ e.invalidate :: l2) ∧
      (∀ uid2, uid2 ≠ uid → s2.bucket uid2 = s.bucket uid2) ∧
      Users.validate_request_token s2 token now = (false, -1) ∧
      Users.validate_refresh_token s2 (b64encode e.refresh_token) now = (false, -1) := by
  have hget : s.get_by_request_token token now = some e := by
    unfold TokenStore.get_by_request_token
    rw [huid]
    exact hfind
  have hkey : (s.tokens.find? (fun kv => decide (kv.1 = uid))).isSome = true := by
    by_contra hk
    have hnone : s.tokens.find? (fun kv => decide (kv.1 = uid)) = none := by
      cases hf : s.tokens.find? (fun kv => decide (kv.1 = uid)) with
      | none => rfl
      | some kv => rw [hf] at hk; simp at hk
    have hempty : s.bucket uid = [] := by
      unfold TokenStore.bucket
      rw [hnone]
    rw [hempty] at hfind
    cases hfind
  obtain ⟨l1, l2, hdecomp, hl1⟩ := find?_decomp _ _ _ hfind
  have hpe : matchesRequest token now e = true := List.find?_some hfind
  have hcounts : l1.count e + (l2.count e + 1) = 1 := by
    rw [hdecomp] at hcount
    simpa [List.count_append, List.count_cons] using hcount
  have hel1 : e ∉ l1 := List.count_eq_zero.mp (by omega)
  have hel2 : e ∉ l2 := List.count_eq_zero.mp (by omega)
  have hs2eq : s.invalidateByRequestToken token now =
      s.mapBucket uid (modifyFirstWhere (matchesRequest token now)
        TokenStoreEntry.invalidate) := by
    unfold TokenStore.invalidateByRequestToken
    rw [huid]
  have hs2bucket : (s.invalidateByRequestToken token now).bucket uid =
      l1 ++ e.invalidate :: l2 := by
    rw [hs2eq, bucket_mapBucket_self s uid _ hkey, hdecomp,
      modifyFirstWhere_decomp _ _ l1 l2 e hl1 hpe]
  have hmem_of : ∀ x, x ∈ l1 ∨ x ∈ l2 → x ∈ s.bucket uid := by
    intro x hx
    rw [hdecomp]
    rcases hx with hx | hx
    · exact List.mem_append.mpr (Or.inl hx)
    · exact List.mem_append.mpr (Or.inr (List.mem_cons_of_mem _ hx))
  have hreqnone : (s.invalidateByRequestToken token now).get_by_request_token token now =
      none := by
    unfold TokenStore.get_by_request_token
    rw [huid]
    show ((s.invalidateByRequestToken token now).bucket uid).find?
      (matchesRequest token now) = none
    rw [hs2bucket]
    apply List.find?_eq_none.mpr
    intro x hx
    rcases List.mem_append.mp hx with hx1 | hx2
    · intro hpx
      exact hel1 ((hreq1 x (hmem_of x (Or.inl hx1)) hpx) ▸ hx1)
    · rcases List.mem_cons.mp hx2 with hxe | hx2
      · rw [hxe]
        simp [matchesRequest_invalidate]
      · intro hpx
        exact hel2 ((hreq1 x (hmem_of x (Or.inr hx2)) hpx) ▸ hx2)
  have hrefnone : (s.invalidateByRequestToken token now).get_by_refresh_token
      (b64encode e.refresh_token) now = none := by
    unfold TokenStore.get_by_refresh_token
    rw [hrefuid]
    show ((s.invalidateByRequestToken token now).bucket uid).find?
      (matchesRefresh (b64encode e.refresh_token) now) = none
    rw [hs2bucket]
    apply List.find?_eq_none.mpr
    intro x hx
    rcases List.mem_append.mp hx with hx1 | hx2
    · intro hpx
      exact hel1 ((href1 x (hmem_of x (Or.inl hx1)) hpx) ▸ hx1)
    · rcases List.mem_cons.mp hx2 with hxe | hx2
      · rw [hxe]
        simp [matchesRefresh_invalidate]
      · intro hpx
        exact hel2 ((href1 x (hmem_of x (Or.inr hx2)) hpx) ▸ hx2)
  refine ⟨s.invalidateByRequestToken token now, ?_, rfl, rfl, rfl, rfl,
    ⟨l1, l2, hdecomp, hs2bucket⟩, ?_, ?_, ?_⟩
  · unfold Users.delete_tokens
    rw [hget]
  · intro uid2 h2
    rw [hs2eq]
    exact bucket_mapBucket_ne s uid uid2 _ h2
  · exact validate_request_token_eq_none _ token now hreqnone
  · exact validate_refresh_token_eq_none _ _ now hrefnone

/-- Witness for C6 on the sample store. -/
theorem c6_witness :
    ∃ s2, Users.delete_tokens sampleStore (b64encode sampleReqBytes) 0 = .ok (s2, true) ∧
      sampleEntry.invalidate.request_ttl = 0 ∧ sampleEntry.invalidate.refresh_ttl = 0 ∧
      sampleEntry.invalidate.request_token = sampleEntry.request_token ∧
      sampleEntry.invalidate.refresh_token = sampleEntry.refresh_token ∧
      (∃ l1 l2, sampleStore.bucket 7 = l1 ++ sampleEntry :: l2 ∧
        s2.bucket 7 = l1 ++ sampleEntry.invalidate :: l2) ∧
      (∀ uid2, uid2 ≠ 7 → s2.bucket uid2 = sampleStore.bucket uid2) ∧
      Users.validate_request_token s2 (b64encode sampleReqBytes) 0 = (false, -1) ∧
      Users.validate_refresh_token s2 (b64encode sampleEntry.refresh_token) 0 = (false, -1) :=
  c6_delete_tokens_invalidates_in_place sampleStore (b64encode sampleReqBytes) 0 sampleEntry 7
    (by decide) (by decide) (by decide) (by decide) (by decide) (by decide)

/-- A nonempty bucket lookup implies the key is present in the store map. -/
theorem bucket_key_isSome (s : TokenStore) (uid : Int) (p : TokenStoreEntry → Bool)
    (e : TokenStoreEntry) (hfind : (s.bucket uid).find? p = some e) :
    (s.tokens.find? (fun kv => decide (kv.1 = uid))).isSome = true := by
  by_contra hk
  have hnone : s.tokens.find? (fun kv => decide (kv.1 = uid)) = none := by
    cases hf : s.tokens.find? (fun kv => decide (kv.1 = uid)) with
    | none => rfl
    | some kv => rw [hf] at hk; simp at hk
  have hempty : s.bucket uid = [] := by
    unfold TokenStore.bucket
    rw [hnone]
  rw [hempty] at hfind
  cases hfind

/-- Claim C10 (implicit): the `SessionTokens` value returned by a successful
`refresh_tokens` carries `request_ttl` equal to the full starting value (600) but
`refresh_ttl` equal to the entry pre-rotation, already-decayed live value
captured by `from_entry` before the rotation — even though the store entry
itself has both declared ttls reset to their starting values by the rotation,
re-anchored at `now`. -/
theorem c10_refresh_tokens_ttl_mismatch (s : TokenStore) (rt : List Char) (rng : List Nat)
    (now : Nat) (e : TokenStoreEntry) (uid : Int)
    (huid : get_user_id_from_token rt = some uid)
    (hfind : (s.bucket uid).find? (matchesRefresh rt now) = some e) :
    ∃ s2 t2, Users.refresh_tokens s rt rng now = .ok (s2, t2) ∧
      t2.request_ttl = 600 ∧
      t2.refresh_ttl = e.refresh_ttl_at now ∧
      t2.refresh_token = rt ∧
      t2.request_token = b64encode (create_user_token uid rng) ∧
      (∃ l1 l2, s.bucket uid = l1 ++ e :: l2 ∧
        s2.bucket uid = l1 ++ e.set_request_token t2.request_token now :: l2) ∧
      (∀ uid2, uid2 ≠ uid → s2.bucket uid2 = s.bucket uid2) ∧
      (e.set_request_token t2.request_token now).request_ttl_at now = 600 ∧
      (e.set_request_token t2.request_token now).refresh_ttl_at now = 86400 := by
  have hget : s.get_by_refresh_token rt now = some e := by
    unfold TokenStore.get_by_refresh_token
    rw [huid]
    exact hfind
  obtain ⟨hat, _⟩ := get_by_refresh_token_elim s rt now e hget
  have hkey := bucket_key_isSome s uid _ e hfind
  obtain ⟨l1, l2, hdecomp, hl1⟩ := find?_decomp _ _ _ hfind
  have hpe : matchesRefresh rt now e = true := List.find?_some hfind
  have hfe : SessionTokens.from_entry e now =
      some ⟨(e.request_token_at now).getD [], rt, e.request_ttl_at now,
        e.refresh_ttl_at now⟩ := by
    unfold SessionTokens.from_entry
    rw [hat]
  have ht2 : (SessionTokens.mk ((e.request_token_at now).getD []) rt (e.request_ttl_at now)
      (e.refresh_ttl_at now)).refresh rng =
      SessionTokens.mk (b64encode (create_user_token uid rng)) rt
        ((REQUEST_TOKEN_EXPIRE_SECONDS : Nat) : Int) (e.refresh_ttl_at now) := by
    simp [SessionTokens.refresh, SessionTokens.get_user_id, huid]
  have hstore : (SessionTokens.mk (b64encode (create_user_token uid rng)) rt
      ((REQUEST_TOKEN_EXPIRE_SECONDS : Nat) : Int) (e.refresh_ttl_at now)).store s now =
      .ok (s.rotateByRefreshToken rt (b64encode (create_user_token uid rng)) now) := by
    unfold SessionTokens.store
    rw [hget]
    simp
  have hs2eq : s.rotateByRefreshToken rt (b64encode (create_user_token uid rng)) now =
      s.mapBucket uid (modifyFirstWhere (matchesRefresh rt now)
        (fun x => x.set_request_token (b64encode (create_user_token uid rng)) now)) := by
    unfold TokenStore.rotateByRefreshToken
    rw [huid]
  have hs2bucket : (s.rotateByRefreshToken rt (b64encode (create_user_token uid rng))
      now).bucket uid =
      l1 ++ e.set_request_token (b64encode (create_user_token uid rng)) now :: l2 := by
    rw [hs2eq, bucket_mapBucket_self s uid _ hkey, hdecomp,
      modifyFirstWhere_decomp _ _ l1 l2 e hl1 hpe]
  refine ⟨s.rotateByRefreshToken rt (b64encode (create_user_token uid rng)) now,
    SessionTokens.mk (b64encode (create_user_token uid rng)) rt
      ((REQUEST_TOKEN_EXPIRE_SECONDS : Nat) : Int) (e.refresh_ttl_at now),
    ?_, by norm_num [REQUEST_TOKEN_EXPIRE_SECONDS], rfl, rfl, rfl,
    ⟨l1, l2, hdecomp, hs2bucket⟩, ?_, ?_, ?_⟩
  · have hbind : (s.get_by_refresh_token rt now).bind
        (fun x => SessionTokens.from_entry x now) =
        some (SessionTokens.mk ((e.request_token_at now).getD []) rt (e.request_ttl_at now)
          (e.refresh_ttl_at now)) := by
      rw [hget]
      exact hfe
    unfold Users.refresh_tokens
    rw [hbind]
    show (match ((SessionTokens.mk ((e.request_token_at now).getD []) rt
        (e.request_ttl_at now) (e.refresh_ttl_at now)).refresh rng).store s now with
      | .ok s3 => Except.ok (s3, (SessionTokens.mk ((e.request_token_at now).getD []) rt
          (e.request_ttl_at now) (e.refresh_ttl_at now)).refresh rng)
      | .error m => Except.error (DBErr.GenericError m)) = _
    rw [ht2, hstore]
  · intro uid2 h2
    rw [hs2eq]
    exact bucket_mapBucket_ne s uid uid2 _ h2
  · simp [TokenStoreEntry.set_request_token, TokenStoreEntry.reset_timer,
      TokenStoreEntry.request_ttl_at, REQUEST_TOKEN_EXPIRE_SECONDS]
  · simp [TokenStoreEntry.set_request_token, TokenStoreEntry.reset_timer,
      TokenStoreEntry.refresh_ttl_at, REFRESH_TOKEN_EXPIRE_SECONDS]

/-- Witness for C10 on the sample store after five seconds of decay. -/
theorem c10_witness :
    ∃ s2 t2, Users.refresh_tokens sampleStore (b64encode sampleRefBytes)
        (List.replicate 32 9) 5 = .ok (s2, t2) ∧
      t2.request_ttl = 600 ∧
      t2.refresh_ttl = sampleEntry.refresh_ttl_at 5 ∧
      t2.refresh_token = b64encode sampleRefBytes ∧
      t2.request_token = b64encode (create_user_token 7 (List.replicate 32 9)) ∧
      (∃ l1 l2, sampleStore.bucket 7 = l1 ++ sampleEntry :: l2 ∧
        s2.bucket 7 = l1 ++ sampleEntry.set_request_token t2.request_token 5 :: l2) ∧
      (∀ uid2, uid2 ≠ 7 → s2.bucket uid2 = sampleStore.bucket uid2) ∧
      (sampleEntry.set_request_token t2.request_token 5).request_ttl_at 5 = 600 ∧
      (sampleEntry.set_request_token t2.request_token 5).refresh_ttl_at 5 = 86400 :=
  c10_refresh_tokens_ttl_mismatch sampleStore (b64encode sampleRefBytes)
    (List.replicate 32 9) 5 sampleEntry 7 (by decide) (by decide)

/-- Appending a fresh empty bucket changes no bucket content. -/
theorem bucket_append_empty (l : List (Int × List TokenStoreEntry)) (uid0 uid2 : Int) :
    TokenStore.bucket ⟨l ++ [(uid0, ([] : List TokenStoreEntry))]⟩ uid2 =
      TokenStore.bucket ⟨l⟩ uid2 := by
  unfold TokenStore.bucket
  simp only
  induction l with
  | nil =>
    by_cases hk : uid0 = uid2
    · rw [List.nil_append, List.find?_cons_of_pos _ (by simp [hk])]
      rfl
    · rw [List.nil_append, List.find?_cons_of_neg _ (by simp [hk])]
  | cons kv rest ih =>
    by_cases hk : kv.1 = uid2
    · rw [List.cons_append, List.find?_cons_of_pos _ (by simp [hk]),
        List.find?_cons_of_pos _ (by simp [hk])]
    · rw [List.cons_append, List.find?_cons_of_neg _ (by simp [hk]),
        List.find?_cons_of_neg _ (by simp [hk])]
      exact ih

/-- The appended empty bucket makes its key present. -/
theorem find?_append_key (l : List (Int × List TokenStoreEntry)) (uid : Int) :
    ((l ++ [(uid, ([] : List TokenStoreEntry))]).find?
      (fun kv => decide (kv.1 = uid))).isSome = true := by
  induction l with
  | nil =>
    rw [List.nil_append, List.find?_cons_of_pos _ (by simp)]
    rfl
  | cons kv rest ih =>
    by_cases hk : kv.1 = uid
    · rw [List.cons_append, List.find?_cons_of_pos _ (by simp [hk])]
      rfl
    · rw [List.cons_append, List.find?_cons_of_neg _ (by simp [hk])]
      exact ih

/-- `ensureBucket` changes no bucket content. -/
theorem ensureBucket_bucket (s : TokenStore) (uid uid2 : Int) :
    (s.ensureBucket uid).bucket uid2 = s.bucket uid2 := by
  unfold TokenStore.ensureBucket
  by_cases hpres : (s.tokens.find? (fun kv => decide (kv.1 = uid))).isSome = true
  · rw [if_pos hpres]
  · rw [if_neg hpres]
    exact bucket_append_empty s.tokens uid uid2

/-- After `ensureBucket` the key is present. -/
theorem ensureBucket_key (s : TokenStore) (uid : Int) :
    ((s.ensureBucket uid).tokens.find? (fun kv => decide (kv.1 = uid))).isSome = true := by
  unfold TokenStore.ensureBucket
  by_cases hpres : (s.tokens.find? (fun kv => decide (kv.1 = uid))).isSome = true
  · rw [if_pos hpres]
    exact hpres
  · rw [if_neg hpres]
    exact find?_append_key s.tokens uid

/-- Rewriting an absent bucket is the identity. -/
theorem mapBucket_absent (s : TokenStore) (uid : Int)
    (g : List TokenStoreEntry → List TokenStoreEntry)
    (h : ¬((s.tokens.find? (fun kv => decide (kv.1 = uid))).isSome = true)) :
    s.mapBucket uid g = s := by
  obtain ⟨l⟩ := s
  unfold TokenStore.mapBucket
  simp only at h ⊢
  congr 1
  induction l with
  | nil => rfl
  | cons kv rest ih =>
    by_cases hk : kv.1 = uid
    · exfalso
      apply h
      rw [List.find?_cons_of_pos _ (by simp [hk])]
      rfl
    · simp only [List.map_cons, if_neg hk]
      rw [ih (fun hc => h (by rw [List.find?_cons_of_neg _ (by simp [hk])]; exact hc))]

/-- A matching refresh-token search implies a positive live refresh ttl. -/
theorem matchesRefresh_ttl_pos (t : List Char) (now : Nat) (e : TokenStoreEntry)
    (h : matchesRefresh t now e = true) : e.refresh_ttl_at now > 0 :=
  (refresh_token_at_some_elim e now t (of_decide_eq_true h)).1

/-- Elements not matching the predicate survive `modifyFirstWhere` unchanged. -/
theorem mem_modifyFirstWhere_of_neg {α : Type} (p : α → Bool) (f : α → α) (l : List α) (x : α)
    (hx : x ∈ l) (hp : p x = false) : x ∈ modifyFirstWhere p f l := by
  induction l with
  | nil => cases hx
  | cons y ys ih =>
    simp only [modifyFirstWhere]
    by_cases hpy : p y = true
    · rw [if_pos hpy]
      rcases List.mem_cons.mp hx with hxy | hxs
      · rw [hxy] at hp
        rw [hp] at hpy
        cases hpy
      · exact List.mem_cons_of_mem _ hxs
    · rw [if_neg hpy]
      rcases List.mem_cons.mp hx with hxy | hxs
      · rw [hxy]
        exact List.mem_cons_self _ _
      · exact List.mem_cons_of_mem _ (ih hxs)

/-- The sweep keeps, in every bucket, exactly the entries with positive live
refresh ttl. -/
theorem bucket_clear_expired (s : TokenStore) (now : Nat) (uid : Int) :
    (s.clear_expired now).bucket uid =
      (s.bucket uid).filter (fun x => decide (x.refresh_ttl_at now > 0)) := by
  obtain ⟨l⟩ := s
  unfold TokenStore.clear_expired TokenStore.bucket
  simp only
  induction l with
  | nil => rfl
  | cons kv rest ih =>
    by_cases hk : kv.1 = uid
    · rw [List.map_cons, List.find?_cons_of_pos _ (by simp [hk]),
        List.find?_cons_of_pos _ (by simp [hk])]
    · rw [List.map_cons, List.find?_cons_of_neg _ (by simp [hk]),
        List.find?_cons_of_neg _ (by simp [hk])]
      exact ih

/-- Claim C3, counterexample: `TokenStore::insert` performs no sweep. Inserting a
fresh token pair at instant 100000 into the sample store succeeds while the
sample entry, whose live refresh ttl is negative at that instant, is still in
the store immediately after the insert. -/
theorem c3_counterexample :
    TokenStore.insert sampleStore (b64encode insReqBytes) (b64encode insRefBytes) 100000 =
      .ok insStore2 ∧
    sampleEntry ∈ insStore2.bucket 7 ∧
    sampleEntry.refresh_ttl_at 100000 ≤ 0 := by
  refine ⟨by rfl, by decide, by decide⟩

/-- Claim C3 as amended: the sweep (`clear_expired`) keeps in every bucket exactly
the entries with live refresh ttl greater than 0, and it is invoked by the
store-level `set_request_token` (after which every remaining entry has positive
live refresh ttl) — but not by `insert`: an insert never removes an entry, and
every expired entry survives an insert unchanged. -/
theorem c3_sweep_semantics (s : TokenStore) (now : Nat) (uid : Int)
    (request refresh rt qt : List Char) (s2 : TokenStore) :
    ((s.clear_expired now).bucket uid =
      (s.bucket uid).filter (fun x => decide (x.refresh_ttl_at now > 0))) ∧
    (TokenStore.insert s request refresh now = .ok s2 →
      ∀ x ∈ s.bucket uid, x.refresh_ttl_at now ≤ 0 → x ∈ s2.bucket uid) ∧
    (∀ x ∈ (TokenStore.set_request_token s rt qt now).bucket uid,
      x.refresh_ttl_at now > 0) := by
  refine ⟨bucket_clear_expired s now uid, ?_, ?_⟩
  · intro hins x hx hexp
    have hpx : matchesRefresh refresh now x = false := by
      cases hmm : matchesRefresh refresh now x with
      | false => rfl
      | true => exact absurd (matchesRefresh_ttl_pos refresh now x hmm) (by omega)
    unfold TokenStore.insert at hins
    cases hd : get_user_id_from_token refresh with
    | none => rw [hd] at hins; cases hins
    | some uid0 =>
      rw [hd] at hins
      have hins2 : (if (((s.ensureBucket uid0).bucket uid0).find?
            (matchesRefresh refresh now)).isSome = true then
          Except.ok ((s.ensureBucket uid0).mapBucket uid0
            (modifyFirstWhere (matchesRefresh refresh now)
              (fun e => e.set_request_token request now)))
        else
          match TokenStoreEntry.new request refresh now with
          | Except.ok entry =>
            Except.ok ((s.ensureBucket uid0).mapBucket uid0 (fun l => l ++ [entry]))
          | Except.error m => Except.error m) = Except.ok s2 := hins
      clear hins
      by_cases hcond : (((s.ensureBucket uid0).bucket uid0).find?
          (matchesRefresh refresh now)).isSome = true
      · rw [if_pos hcond] at hins2
        have h2 := Except.ok.inj hins2
        subst h2
        by_cases he : uid = uid0
        · subst he
          rw [bucket_mapBucket_self _ _ _ (ensureBucket_key s uid),
            ensureBucket_bucket s uid uid]
          exact mem_modifyFirstWhere_of_neg _ _ _ x hx hpx
        · rw [bucket_mapBucket_ne _ _ _ _ he, ensureBucket_bucket s uid0 uid]
          exact hx
      · rw [if_neg hcond] at hins2
        cases hnew : TokenStoreEntry.new request refresh now with
        | error m => rw [hnew] at hins2; cases hins2
        | ok entry =>
          rw [hnew] at hins2
          have h2 := Except.ok.inj hins2
          subst h2
          by_cases he : uid = uid0
          · subst he
            rw [bucket_mapBucket_self _ _ _ (ensureBucket_key s uid),
              ensureBucket_bucket s uid uid]
            exact List.mem_append.mpr (Or.inl hx)
          · rw [bucket_mapBucket_ne _ _ _ _ he, ensureBucket_bucket s uid0 uid]
            exact hx
  · intro x hx
    unfold TokenStore.set_request_token at hx
    cases hd : get_user_id_from_token qt with
    | none =>
      rw [hd, bucket_clear_expired s now uid] at hx
      exact of_decide_eq_true (List.mem_filter.mp hx).2
    | some uid0 =>
      rw [hd] at hx
      have hx2 : x ∈ ((s.clear_expired now).mapBucket uid0 (List.map (fun e =>
          if matchesRefresh rt now e then e.set_request_token qt now else e))).bucket uid := hx
      clear hx
      by_cases he : uid = uid0
      · subst he
        by_cases hpres : ((s.clear_expired now).tokens.find?
            (fun kv => decide (kv.1 = uid))).isSome = true
        · rw [bucket_mapBucket_self _ _ _ hpres] at hx2
          obtain ⟨y, hy, hxy⟩ := List.mem_map.mp hx2
          rw [bucket_clear_expired s now uid] at hy
          have hypos : y.refresh_ttl_at now > 0 := of_decide_eq_true (List.mem_filter.mp hy).2
          by_cases hm : matchesRefresh rt now y = true
          · rw [← hxy, if_pos hm]
            simp [TokenStoreEntry.set_request_token, TokenStoreEntry.reset_timer,
              TokenStoreEntry.refresh_ttl_at, REFRESH_TOKEN_EXPIRE_SECONDS]
          · rw [← hxy, if_neg hm]
            exact hypos
        · rw [mapBucket_absent _ _ _ hpres, bucket_clear_expired s now uid] at hx2
          exact of_decide_eq_true (List.mem_filter.mp hx2).2
      · rw [bucket_mapBucket_ne _ _ _ _ he, bucket_clear_expired s now uid] at hx2
        exact of_decide_eq_true (List.mem_filter.mp hx2).2

/-- Witness for the amended C3: the expired sample entry survives the concrete
insert of the counterexample. -/
theorem c3_witness : sampleEntry ∈ insStore2.bucket 7 :=
  (c3_sweep_semantics sampleStore 100000 7 (b64encode insReqBytes) (b64encode insRefBytes)
    [] [] insStore2).2.1 (by rfl) sampleEntry (by decide) (by decide)

/-- Claim C5: for every database state, `update_role` with the reserved admin role
name as `old_name`, and `delete_role` with the admin role name, fail with the
validation error before any mutation — the returned state is the input state —
so the admin role can never be renamed or deleted. -/
theorem c5_admin_role_protected (st : DbState) (new_name : List Char)
    (description : Option (List Char)) (permissions : List Int) :
    Roles.update_role st ADMIN_ROLE_NAME new_name description permissions =
      (st, .error (.GenericError adminAlterMsg)) ∧
    Roles.delete_role st ADMIN_ROLE_NAME = (st, .error (.GenericError adminAlterMsg)) := by
  constructor
  · unfold Roles.update_role
    rw [if_pos rfl]
  · unfold Roles.delete_role
    rw [if_pos rfl]

/-- Claim C4, counterexample: with permission id 5 absent, `Roles::create_role`
fails with the Postgres foreign-key error of the join-row insert, not with a
validation error — the permission-existence check does not live inside the
transaction of `create_role`. The state is returned unchanged (rollback). -/
theorem c4_counterexample :
    Roles.create_role roleTestState ("staff".data) none [5] ("admin".data) =
      (roleTestState, .error (.Postgres fkRolePermMsg)) := by
  rfl

/-- Claim C4 as amended: the permission-existence validation runs in the HTTP
handler before (outside) the transaction, via `get_not_existing`, answering a
400 validation error and persisting nothing; `Roles::create_role` itself does
not validate — a requested permission id that is absent makes the join-row
insert fail the foreign key inside the transaction, and in both failure modes
the returned state is the unchanged input state: zero rows are persisted. -/
theorem c4_create_role_validation (st : DbState) (name : List Char)
    (description : Option (List Char)) (permissions : List Int) (admin_email : List Char)
    (hfresh : (st.roles.find? (fun r => decide (r.name = name))).isSome = false)
    (hmissing : ∃ p ∈ permissions, p ∉ st.permissions) :
    Roles.create_role st name description permissions admin_email =
      (st, .error (.Postgres fkRolePermMsg)) ∧
    Permissions.get_not_existing st permissions ≠ [] ∧
    UserHttpServer.create_role st name description permissions admin_email =
      (st, .error permsDontExistMsg) := by
  obtain ⟨p, hp, hpm⟩ := hmissing
  have hmem : p ∈ Permissions.get_not_existing st permissions := by
    unfold Permissions.get_not_existing
    exact List.mem_filter.mpr ⟨List.mem_dedup.mpr hp, by simpa using hpm⟩
  have hne : Permissions.get_not_existing st permissions ≠ [] :=
    List.ne_nil_of_mem hmem
  have hall : ¬(permissions.dedup.all (fun q => decide (q ∈ st.permissions)) = true) := by
    intro hall
    exact hpm (of_decide_eq_true (List.all_eq_true.mp hall p (List.mem_dedup.mpr hp)))
  refine ⟨?_, hne, ?_⟩
  · unfold Roles.create_role
    rw [if_neg (by simp [hfresh]), if_neg hall]
  · unfold UserHttpServer.create_role
    rw [if_pos hne]

/-- Witness for the amended C4 on the empty state. -/
theorem c4_witness :
    Roles.create_role roleTestState ("staff".data) none [5] ("admin".data) =
      (roleTestState, .error (.Postgres fkRolePermMsg)) ∧
    Permissions.get_not_existing roleTestState [5] ≠ [] ∧
    UserHttpServer.create_role roleTestState ("staff".data) none [5] ("admin".data) =
      (roleTestState, .error permsDontExistMsg) :=
  c4_create_role_validation roleTestState ("staff".data) none [5] ("admin".data)
    (by rfl) ⟨5, by decide, by decide⟩

/-- Claim C7: the code fails `Conflict` whenever `new_name` names any existing
role, with no exclusion for the role being updated itself — updating a role
while keeping its name unchanged always fails with the name-collision error and
performs no update, contradicting the claim (and spec), for which only a
collision with a different role should conflict. -/
theorem c7_same_name_update_conflicts :
    Roles.update_role editorState ("editor".data) ("editor".data) none [] =
      (editorState, .error (.GenericError roleNameExistsMsg)) := by
  rfl
